import Mathlib

/-!
Shallow embedding of the batch media-processing pipeline shared by the
image batch resizer (`BatchImageResizer`) and the video frame extractor
(`VideoFrameExtractor`) of the Digital Toolbox repository.

Conventions of the embedding:
* JavaScript numbers are modelled as exact rationals (`ℚ`); natural image
  dimensions are `ℕ`; `Math.round` is `jsRound` below.
* Raw file contents are opaque `String` references; the browser decode and
  encode steps (image load, `canvas.toBlob`) are oracle functions passed as
  parameters, returning `Option` to model their failure callbacks.
* React state updates (`onChangeState`) are modelled by returning the list of
  successive states a handler publishes; an empty list means the handler
  returned without touching the state.
-/

/-- Output format selector, the two codecs of the `outputFormat` field
(source values are the strings "jpeg" and "png"). -/
inductive OutputFormat where
  | jpeg
  | png
deriving DecidableEq, Repr

/-- Mime type string chosen for `canvas.toBlob`, from
`format === 'jpeg' ? 'image/jpeg' : 'image/png'`. -/
def mimeType (format : OutputFormat) : String :=
  if format = OutputFormat.jpeg then "image/jpeg" else "image/png"

/-- Quality argument passed to `canvas.toBlob`, from
`mimeType === 'image/jpeg' ? (enableCompression ? 0.7 : 1.0) : undefined`
(identical in `resizeImage` and `extractFrame`); `none` models `undefined`. -/
def encodeQuality (format : OutputFormat) (enableCompression : Bool) : Option ℚ :=
  if mimeType format = "image/jpeg" then
    some (if enableCompression then 7/10 else 1)
  else
    none

/-- JavaScript `Math.round`: round half toward positive infinity. -/
def jsRound (q : ℚ) : ℤ := ⌊q + 1/2⌋

/-- Dimension math shared by `resizeImage` and `extractFrame`: cap the height
at `maxHeight`, keeping the aspect ratio, over exact rationals. Source:
`if (height > maxHeight) { const ratio = maxHeight / height; width = width * ratio; height = maxHeight; }`. -/
def computeScaled (naturalWidth naturalHeight maxHeight : ℕ) : ℚ × ℚ :=
  if naturalHeight > maxHeight then
    ((naturalWidth : ℚ) * ((maxHeight : ℚ) / (naturalHeight : ℚ)), (maxHeight : ℚ))
  else
    ((naturalWidth : ℚ), (naturalHeight : ℚ))

/-- Output dimensions reported in the resolved result:
`Math.round(width)` and `Math.round(height)` of the scaled dimensions. -/
def reportedDims (naturalWidth naturalHeight maxHeight : ℕ) : ℤ × ℤ :=
  let s := computeScaled naturalWidth naturalHeight maxHeight
  (jsRound s.1, jsRound s.2)

/-- Drawing commands issued against the 2d canvas context, recording the
arguments that matter to the claims. -/
inductive CanvasOp where
  | fillRect (color : String) (x y w h : ℚ)
  | drawImage (w h : ℚ)
deriving DecidableEq, Repr

/-- Canvas command sequence of one resample, from the bodies of `resizeImage`
and `extractFrame`: for the jpeg path, fill the whole target with opaque
white, then draw the source raster scaled to the target size; for png, only
draw. -/
def resizeCanvasOps (naturalWidth naturalHeight maxHeight : ℕ)
    (format : OutputFormat) : List CanvasOp :=
  let s := computeScaled naturalWidth naturalHeight maxHeight
  (if format = OutputFormat.jpeg then [CanvasOp.fillRect "#FFFFFF" 0 0 s.1 s.2] else [])
    ++ [CanvasOp.drawImage s.1 s.2]

/-- Encoded output buffer; only its byte size is observable to the claims. -/
structure Blob where
  size : ℕ
deriving DecidableEq, Repr

/-- Resolved value of `resizeImage` / `extractFrame`:
`{blob, width: Math.round(width), height: Math.round(height)}`. -/
structure ResizeResult where
  blob : Blob
  width : ℤ
  height : ℤ
deriving DecidableEq, Repr

/-- The `resizeImage` promise: decode the file (oracle `decode`, yielding the
natural dimensions, `none` on the error callback), compute the scaled
dimensions, encode the canvas (oracle `encode`, fed the scaled size, mime
type and quality, `none` when `toBlob` yields no data), and resolve with the
blob and the rounded dimensions. -/
def resizeImage (decode : String → Option (ℕ × ℕ))
    (encode : ℚ × ℚ → String → Option ℚ → Option Blob)
    (file : String) (maxHeight : ℕ) (format : OutputFormat)
    (enableCompression : Bool) : Option ResizeResult :=
  match decode file with
  | none => none
  | some (w0, h0) =>
    let s := computeScaled w0 h0 maxHeight
    match encode s (mimeType format) (encodeQuality format enableCompression) with
    | none => none
    | some blob => some ⟨blob, jsRound s.1, jsRound s.2⟩

/-- Model of the JS `String.prototype.trim`: remove leading and trailing
whitespace characters. -/
def jsTrim (s : String) : String :=
  String.mk ((s.data.dropWhile Char.isWhitespace).reverse.dropWhile Char.isWhitespace).reverse

/-- Extension string chosen by the orchestrators:
`outputFormat === 'jpeg' ? '.jpg' : '.png'`. -/
def outputExt (format : OutputFormat) : String :=
  if format = OutputFormat.jpeg then ".jpg" else ".png"

/-- Models the JS `displayName.replace` call with the regex that deletes a
trailing dot-extension: a final dot followed by one or more characters, none
of which is a dot or a slash. When no such suffix exists the string is
returned unchanged. -/
def stripExtension (s : String) : String :=
  let r := s.data.reverse
  match r.dropWhile (fun c => c != '.' && c != '/') with
  | '.' :: rest =>
    if r.takeWhile (fun c => c != '.' && c != '/') = [] then s
    else String.mk rest.reverse
  | _ => s

/-- Output name derivation of the image-resizer orchestrator (`handleProcess`
in the resizer): with a non-blank base name, `base-(i+1)` plus the extension;
otherwise the original display name with its extension stripped, plus the
extension. -/
def imageDeriveName (newName : String) (i : ℕ) (displayName : String)
    (format : OutputFormat) : String :=
  (if jsTrim newName ≠ "" then jsTrim newName ++ "-" ++ toString (i + 1)
   else stripExtension displayName) ++ outputExt format

/-- Output name derivation of the video-frame orchestrator (`handleProcess`
in the extractor): with a non-blank base name, `base-(i+1)` plus the
extension; otherwise `frame-(i+1)` plus the extension. -/
def videoDeriveName (newName : String) (i : ℕ) (format : OutputFormat) : String :=
  (if jsTrim newName ≠ "" then jsTrim newName ++ "-" ++ toString (i + 1)
   else "frame-" ++ toString (i + 1)) ++ outputExt format

/-- The per-item record of the image resizer (`ResizerFile`): the stable id,
the opaque original file reference, preview url, display name, the original
metadata, and the optional processed output fields. -/
structure ResizerFile where
  id : String
  originalFile : String
  previewUrl : String
  displayName : String
  originalWidth : Option ℕ
  originalHeight : Option ℕ
  originalSize : Option ℕ
  processedBlob : Option Blob
  processedWidth : Option ℤ
  processedHeight : Option ℤ
  processedSize : Option ℕ
deriving DecidableEq, Repr

/-- State of the image resizer tool (`BatchImageResizerState`). -/
structure BatchImageResizerState where
  files : List ResizerFile
  newName : String
  resolution : ℕ
  outputFormat : OutputFormat
  compression : Bool
  isProcessing : Bool
deriving DecidableEq, Repr

/-- The wholesale item update performed on a successful resize:
`updatedFiles[i] = { ...file, processedBlob, processedWidth, processedHeight, processedSize, displayName }`. -/
def processedUpdate (f : ResizerFile) (r : ResizeResult) (name : String) : ResizerFile :=
  { f with
    processedBlob := some r.blob
    processedWidth := some r.width
    processedHeight := some r.height
    processedSize := some r.blob.size
    displayName := name }

/-- Effect of the loop body of the resizer `handleProcess` on the item at
absolute index `i`: on resize success the item is replaced wholesale, on
failure (the catch branch) it is left unchanged. -/
def processOne (resize : String → ℕ → OutputFormat → Bool → Option ResizeResult)
    (newName : String) (resolution : ℕ) (format : OutputFormat) (comp : Bool)
    (i : ℕ) (f : ResizerFile) : ResizerFile :=
  match resize f.originalFile resolution format comp with
  | some r => processedUpdate f r (imageDeriveName newName i f.displayName format)
  | none => f

/-- The resizer `handleProcess` loop from start index `i`: returns the final
`updatedFiles` array together with the list of `files` snapshots published by
the per-success `onChangeState` calls, in order. -/
def processFilesSnaps (resize : String → ℕ → OutputFormat → Bool → Option ResizeResult)
    (newName : String) (resolution : ℕ) (format : OutputFormat) (comp : Bool) :
    ℕ → List ResizerFile → List ResizerFile × List (List ResizerFile)
  | _, [] => ([], [])
  | i, f :: rest =>
    match resize f.originalFile resolution format comp with
    | some r =>
      let fUpd := processedUpdate f r (imageDeriveName newName i f.displayName format)
      let p := processFilesSnaps resize newName resolution format comp (i + 1) rest
      (fUpd :: p.1, (fUpd :: rest) :: p.2.map (fun l => fUpd :: l))
    | none =>
      let p := processFilesSnaps resize newName resolution format comp (i + 1) rest
      (f :: p.1, p.2.map (fun l => f :: l))

/-- Final `updatedFiles` array of one resizer `handleProcess` run. -/
def processFiles (resize : String → ℕ → OutputFormat → Bool → Option ResizeResult)
    (newName : String) (resolution : ℕ) (format : OutputFormat) (comp : Bool)
    (i : ℕ) (files : List ResizerFile) : List ResizerFile :=
  (processFilesSnaps resize newName resolution format comp i files).1

/-- The resizer `handleProcess` handler, as the list of states it publishes:
empty when the guard `files.length === 0` fires, otherwise the initial
`isProcessing := true` update, the per-success file-list snapshots, and the
final `isProcessing := false` update. -/
def handleProcessImage (resize : String → ℕ → OutputFormat → Bool → Option ResizeResult)
    (s : BatchImageResizerState) : List BatchImageResizerState :=
  if s.files = [] then []
  else
    let p := processFilesSnaps resize s.newName s.resolution s.outputFormat s.compression 0 s.files
    { s with isProcessing := true }
      :: (p.2.map (fun fl => { s with isProcessing := true, files := fl })
          ++ [{ s with isProcessing := false, files := p.1 }])

/-- Effect of one `zip.file(name, blob)` call on the JSZip container: JSZip
keys entries by name, so a call under an already-present name overwrites that
entry in place and a call under a fresh name appends a new entry. -/
def zipFileCall (container : List (String × Blob)) (name : String) (blob : Blob) :
    List (String × Blob) :=
  if container.any (fun e => e.1 = name) then
    container.map (fun e => if e.1 = name then (name, blob) else e)
  else container ++ [(name, blob)]

/-- JSZip container produced by a sequence of `zip.file` calls on a fresh
archive, in call order; duplicate names collapse, last write wins. -/
def zipEntries (calls : List (String × Blob)) : List (String × Blob) :=
  calls.foldl (fun acc c => zipFileCall acc c.1 c.2) []

/-- Blob stored in a container under a name, if any. -/
def zipGet (container : List (String × Blob)) (name : String) : Option Blob :=
  (container.find? (fun e => e.1 = name)).map Prod.snd

/-- Blob of the last call issued under a name, if any. -/
def lastWrite (calls : List (String × Blob)) (name : String) : Option Blob :=
  ((calls.filter (fun e => e.1 = name)).getLast?).map Prod.snd

/-- The resizer `handleDownload` handler: `none` models the early return when
no item has a processed blob; otherwise the produced archive is the JSZip
container left by one `zip.file(displayName, blob)` call per processed item
in list order (name-keyed, last write wins), and the zip file name, whose
count is the number of processed items. -/
def handleDownloadImage (s : BatchImageResizerState) : Option (List (String × Blob) × String) :=
  let processedFiles := s.files.filter (fun f => f.processedBlob.isSome)
  if processedFiles.length = 0 then none
  else
    let entries := zipEntries
      (processedFiles.map (fun f => (f.displayName, f.processedBlob.getD ⟨0⟩)))
    let baseName := if jsTrim s.newName ≠ "" then jsTrim s.newName else "resized-images"
    some (entries, baseName ++ "(1-" ++ toString processedFiles.length ++ ").zip")

/-- The `handleDragSort` handler shared by both tools, over the item list:
with both indices set, remove the dragged item by index and re-insert it at
the drag-over index (JS `splice` semantics for in-range indices); with either
index unset the guard returns without publishing a state. The out-of-range
lookup miss branch is unreachable from the UI, where both indices come from
rendered list positions. -/
def handleDragSort {α : Type} (draggedItemIndex dragOverItemIndex : Option ℕ)
    (l : List α) : List α :=
  match draggedItemIndex, dragOverItemIndex with
  | some i, some j =>
    match l[i]? with
    | some draggedItemContent => (l.eraseIdx i).insertIdx j draggedItemContent
    | none => l
  | _, _ => l

/-- The per-frame record of the video extractor (`ExtractedFrame`). -/
structure ExtractedFrame where
  id : String
  timestamp : ℚ
  previewUrl : String
  processedBlob : Option Blob
  processedWidth : Option ℤ
  processedHeight : Option ℤ
  processedSize : Option ℕ
  displayName : String
deriving DecidableEq, Repr

/-- State of the video frame extractor tool (`VideoFrameExtractorState`);
`videoLoaded` models a non-null `videoRef.current` with a loaded video file. -/
structure VideoFrameExtractorState where
  videoLoaded : Bool
  videoDuration : ℚ
  markers : List ℚ
  extractedFrames : List ExtractedFrame
  newName : String
  resolution : ℕ
  outputFormat : OutputFormat
  compression : Bool
  isProcessing : Bool
  isPreviewCollapsed : Bool
deriving DecidableEq, Repr

/-- Default resizer state (`defaultResizerState` in the source). -/
def defaultResizerState : BatchImageResizerState :=
  { files := []
    newName := ""
    resolution := 720
    outputFormat := OutputFormat.jpeg
    compression := true
    isProcessing := false }

/-- Default extractor state (`defaultExtractorState` in the source). -/
def defaultExtractorState : VideoFrameExtractorState :=
  { videoLoaded := false
    videoDuration := 0
    markers := []
    extractedFrames := []
    newName := ""
    resolution := 720
    outputFormat := OutputFormat.jpeg
    compression := true
    isProcessing := false
    isPreviewCollapsed := false }

/-- The `handleAddMarker` handler on the marker list: a duplicate of the
current time is a no-op (the guard returns), otherwise the new timestamp is
appended and the list sorted ascending, modelling
`[...markers, currentTime].sort((a,b) => a-b)`. -/
def handleAddMarker (currentTime : ℚ) (markers : List ℚ) : List ℚ :=
  if currentTime ∈ markers then markers
  else (markers ++ [currentTime]).mergeSort (fun a b => a ≤ b)

/-- The `handleRemoveMarker` handler: drop every marker equal to the given
timestamp, modelling `markers.filter(m => m !== timestamp)`. -/
def handleRemoveMarker (timestamp : ℚ) (markers : List ℚ) : List ℚ :=
  markers.filter (fun m => m != timestamp)

/-- Marker lists reachable in the extractor: start empty (default state) and
apply any sequence of add and remove operations. -/
inductive ReachableMarkers : List ℚ → Prop where
  | init : ReachableMarkers []
  | add (t : ℚ) {l : List ℚ} : ReachableMarkers l → ReachableMarkers (handleAddMarker t l)
  | remove (t : ℚ) {l : List ℚ} : ReachableMarkers l → ReachableMarkers (handleRemoveMarker t l)

/-- Frame record pushed by the extractor loop after a successful
`extractFrame` at one marker; the random id suffix of the source is elided
since no claim observes it, and the object URL is opaque. -/
def mkExtractedFrame (t : ℚ) (r : ResizeResult) (name : String) : ExtractedFrame :=
  { id := "frame-" ++ toString t
    timestamp := t
    previewUrl := "blob-" ++ toString t
    processedBlob := some r.blob
    processedWidth := some r.width
    processedHeight := some r.height
    processedSize := some r.blob.size
    displayName := name }

/-- The extractor `handleProcess` loop over the markers from index `i`: seek
to each timestamp, run `extractFrame` (oracle `extract`, fed the timestamp
that determines the captured frame plus the config), and push a frame on
success; the catch branch pushes nothing and the loop continues. -/
def extractFramesLoop (extract : ℚ → ℕ → OutputFormat → Bool → Option ResizeResult)
    (newName : String) (resolution : ℕ) (format : OutputFormat) (comp : Bool) :
    ℕ → List ℚ → List ExtractedFrame
  | _, [] => []
  | i, t :: rest =>
    (match extract t resolution format comp with
     | some r => [mkExtractedFrame t r (videoDeriveName newName i format)]
     | none => []) ++ extractFramesLoop extract newName resolution format comp (i + 1) rest

/-- The extractor `handleProcess` handler, as the list of states it
publishes: empty when the guard (no video element or no markers) fires,
otherwise the initial `isProcessing := true` update and the single final
update installing the new frames wholesale. -/
def handleProcessVideo (extract : ℚ → ℕ → OutputFormat → Bool → Option ResizeResult)
    (s : VideoFrameExtractorState) : List VideoFrameExtractorState :=
  if ¬ s.videoLoaded ∨ s.markers = [] then []
  else
    [{ s with isProcessing := true },
     { s with
        extractedFrames :=
          extractFramesLoop extract s.newName s.resolution s.outputFormat s.compression 0 s.markers
        isProcessing := false
        isPreviewCollapsed := true }]

/-- The extractor `handleDownload` handler: `none` models the early return
when there are no extracted frames; otherwise the archive is the JSZip
container left by one `zip.file` call per frame in list order (name-keyed,
last write wins) and the zip file name. -/
def handleDownloadVideo (s : VideoFrameExtractorState) : Option (List (String × Blob) × String) :=
  if s.extractedFrames.length = 0 then none
  else
    let entries := zipEntries
      (s.extractedFrames.map (fun f => (f.displayName, f.processedBlob.getD ⟨0⟩)))
    let baseName := if jsTrim s.newName ≠ "" then jsTrim s.newName else "extracted-frames"
    some (entries, baseName ++ "(1-" ++ toString s.extractedFrames.length ++ ").zip")

/-- Sample blob, resize result, oracles, files and states used by the
concrete witness instantiations below. -/
def sampleBlob : Blob := ⟨10⟩

def sampleResult : ResizeResult := ⟨sampleBlob, 4, 3⟩

/-- Sample resize oracle that fails exactly on the file reference "fileB". -/
def sampleResize (file : String) (_ : ℕ) (_ : OutputFormat) (_ : Bool) : Option ResizeResult :=
  if file = "fileB" then none else some sampleResult

/-- Sample extract oracle that fails exactly at timestamp 2. -/
def sampleExtract (t : ℚ) (_ : ℕ) (_ : OutputFormat) (_ : Bool) : Option ResizeResult :=
  if t = 2 then none else some sampleResult

/-- Sample extract oracle that always succeeds. -/
def sampleExtractAll (_ : ℚ) (_ : ℕ) (_ : OutputFormat) (_ : Bool) : Option ResizeResult :=
  some sampleResult

/-- Fresh sample source item with the given name and file reference. -/
def sampleFile (nm fileRef : String) : ResizerFile :=
  { id := nm
    originalFile := fileRef
    previewUrl := ""
    displayName := nm
    originalWidth := some 8
    originalHeight := some 6
    originalSize := some 20
    processedBlob := none
    processedWidth := none
    processedHeight := none
    processedSize := none }

/-- Sample resizer state with three fresh files, the second of which the
sample resize oracle rejects. -/
def sampleResizerState : BatchImageResizerState :=
  { defaultResizerState with
      files := [sampleFile "a.png" "fileA", sampleFile "b.png" "fileB", sampleFile "c.png" "fileC"] }

/-- Sample extractor state with a loaded video and three markers, the second
of which the sample extract oracle rejects. -/
def sampleExtractorState : VideoFrameExtractorState :=
  { defaultExtractorState with
      videoLoaded := true
      videoDuration := 10
      markers := [1, 2, 3] }

/-- Sample already-processed source item, for download witnesses. -/
def processedSampleFile : ResizerFile :=
  { sampleFile "a.png" "fileA" with
      processedBlob := some sampleBlob
      processedWidth := some 4
      processedHeight := some 3
      processedSize := some 10
      displayName := "a.jpg" }

/-- Sample resizer state holding one processed item. -/
def processedResizerState : BatchImageResizerState :=
  { defaultResizerState with files := [processedSampleFile] }

/-- Sample extracted frame, for download witnesses. -/
def processedFrame : ExtractedFrame := mkExtractedFrame 1 sampleResult "frame-1.jpg"

/-- Sample extractor state holding one extracted frame. -/
def processedExtractorState : VideoFrameExtractorState :=
  { defaultExtractorState with
      videoLoaded := true
      markers := [1]
      extractedFrames := [processedFrame] }

/-- Processed item derived from an upload named photo.png: with the empty
base name its derived output name is photo.jpg. -/
def collidingFileA : ResizerFile :=
  { sampleFile "photo.png" "fileA" with
      processedBlob := some ⟨11⟩
      processedWidth := some 4
      processedHeight := some 3
      processedSize := some 11
      displayName := "photo.jpg" }

/-- Processed item derived from an upload named photo.jpeg: with the empty
base name its derived output name is also photo.jpg. -/
def collidingFileB : ResizerFile :=
  { sampleFile "photo.jpeg" "fileC" with
      processedBlob := some ⟨12⟩
      processedWidth := some 4
      processedHeight := some 3
      processedSize := some 12
      displayName := "photo.jpg" }

/-- Resizer state with two processed items whose derived output names
collide under the empty base name. -/
def collidingResizerState : BatchImageResizerState :=
  { defaultResizerState with files := [collidingFileA, collidingFileB] }

theorem jsRound_natCast (n : ℕ) : jsRound (n : ℚ) = (n : ℤ) := by
  unfold jsRound
  rw [add_comm, Int.floor_add_nat]
  norm_num

/-- C1: if the natural height fits under `maxHeight` the reported output
dimensions equal the input dimensions; otherwise the reported height is
`maxHeight` and the reported width is `round(naturalWidth * (maxHeight / naturalHeight))`;
and a successful `resizeImage` run reports exactly these dimensions. -/
theorem resample_dims_spec (w h m : ℕ) :
    (h ≤ m → reportedDims w h m = ((w : ℤ), (h : ℤ)))
    ∧ (m < h → reportedDims w h m = (jsRound ((w : ℚ) * ((m : ℚ) / (h : ℚ))), (m : ℤ)))
    ∧ (∀ (decode : String → Option (ℕ × ℕ))
        (encode : ℚ × ℚ → String → Option ℚ → Option Blob)
        (file : String) (format : OutputFormat) (comp : Bool) (r : ResizeResult),
        decode file = some (w, h) →
        resizeImage decode encode file m format comp = some r →
        (r.width, r.height) = reportedDims w h m) := by
  refine ⟨fun hle => ?_, fun hlt => ?_, ?_⟩
  · simp only [reportedDims, computeScaled, if_neg (by omega : ¬ h > m)]
    rw [jsRound_natCast, jsRound_natCast]
  · simp only [reportedDims, computeScaled, if_pos (by omega : h > m)]
    rw [jsRound_natCast]
  · intro decode encode file format comp r hdec hrun
    simp only [resizeImage, hdec] at hrun
    rcases henc : encode (computeScaled w h m) (mimeType format)
        (encodeQuality format comp) with _ | blob
    · rw [henc] at hrun; cases hrun
    · rw [henc] at hrun
      cases hrun
      rfl

/-- Witness for C1 at concrete inputs: a 1920x1080 image capped at 720 keeps
the aspect ratio (1280x720), and an image already within bounds is unchanged. -/
theorem resample_dims_spec_witness :
    (1080 ≤ 1080 ∧ reportedDims 1920 1080 1080 = (1920, 1080))
    ∧ (720 < 1080 ∧ reportedDims 1920 1080 720 = (jsRound ((1920 : ℚ) * ((720 : ℚ) / (1080 : ℚ))), 720)
        ∧ reportedDims 1920 1080 720 = (1280, 720)) :=
  ⟨⟨le_refl 1080, (resample_dims_spec 1920 1080 1080).1 (by norm_num)⟩,
   ⟨by norm_num, (resample_dims_spec 1920 1080 720).2.1 (by norm_num),
    by norm_num [reportedDims, computeScaled, jsRound]⟩⟩

/-- C4: the quality passed to the encoder is 0.7 for jpeg with compression on,
1.0 for jpeg with compression off, and absent for png. -/
theorem encode_quality_spec :
    encodeQuality OutputFormat.jpeg true = some (7/10)
    ∧ encodeQuality OutputFormat.jpeg false = some 1
    ∧ (∀ c : Bool, encodeQuality OutputFormat.png c = none) := by
  refine ⟨by simp [encodeQuality, mimeType], by simp [encodeQuality, mimeType],
    fun c => by cases c <;> simp [encodeQuality, mimeType]⟩

/-- C7: on the jpeg path the canvas commands are exactly an opaque white fill
of the entire target area followed by the scaled draw; on the png path the
commands are the draw alone, with no fill of any kind. -/
theorem jpeg_white_prefill_spec (w h m : ℕ) :
    (resizeCanvasOps w h m OutputFormat.jpeg =
      [CanvasOp.fillRect "#FFFFFF" 0 0 (computeScaled w h m).1 (computeScaled w h m).2,
       CanvasOp.drawImage (computeScaled w h m).1 (computeScaled w h m).2])
    ∧ (resizeCanvasOps w h m OutputFormat.png =
        [CanvasOp.drawImage (computeScaled w h m).1 (computeScaled w h m).2])
    ∧ (∀ color x y a b, CanvasOp.fillRect color x y a b ∉ resizeCanvasOps w h m OutputFormat.png) := by
  refine ⟨rfl, rfl, ?_⟩
  intro color x y a b hmem
  simp [resizeCanvasOps] at hmem

theorem processFilesSnaps_fst_eq_mapIdx (resize : String → ℕ → OutputFormat → Bool → Option ResizeResult)
    (newName : String) (resolution : ℕ) (format : OutputFormat) (comp : Bool)
    (i0 : ℕ) (files : List ResizerFile) :
    (processFilesSnaps resize newName resolution format comp i0 files).1 =
      files.mapIdx (fun k f => processOne resize newName resolution format comp (i0 + k) f) := by
  induction files generalizing i0 with
  | nil => simp [processFilesSnaps]
  | cons f rest ih =>
    rw [List.mapIdx_cons]
    rcases hr : resize f.originalFile resolution format comp with _ | r
    all_goals
      simp only [processFilesSnaps, hr, ih (i0 + 1), processOne, Nat.add_zero]
      refine congrArg (List.cons _) ?_
      refine congrArg (fun fn => List.mapIdx fn rest) ?_
      funext k g
      have hk : i0 + 1 + k = i0 + (k + 1) := by omega
      rw [hk]

theorem sorted_lt_of_pairwise_le_nodup {l : List ℚ}
    (h1 : List.Pairwise (· ≤ ·) l) (h2 : l.Nodup) : List.Sorted (· < ·) l :=
  (h1.and h2).imp (fun hab => lt_of_le_of_ne hab.1 hab.2)

theorem nodup_of_sorted_lt {l : List ℚ} (hs : List.Sorted (· < ·) l) : l.Nodup :=
  hs.imp (fun hab => ne_of_lt hab)

theorem handleAddMarker_perm (t : ℚ) (l : List ℚ) (h : t ∉ l) :
    (handleAddMarker t l).Perm (l ++ [t]) := by
  unfold handleAddMarker
  rw [if_neg h]
  exact List.mergeSort_perm _ _

theorem handleAddMarker_sorted (t : ℚ) (l : List ℚ) (hs : List.Sorted (· < ·) l) :
    List.Sorted (· < ·) (handleAddMarker t l) := by
  by_cases hmem : t ∈ l
  · unfold handleAddMarker
    rw [if_pos hmem]
    exact hs
  · have hperm := handleAddMarker_perm t l hmem
    have hle : List.Pairwise (· ≤ ·) (handleAddMarker t l) := by
      unfold handleAddMarker
      rw [if_neg hmem]
      have hpair := @List.sorted_mergeSort ℚ (fun a b : ℚ => decide (a ≤ b))
        (fun a b c hab hbc => by
          simp only [decide_eq_true_eq] at *
          exact le_trans hab hbc)
        (fun a b => by simpa using le_total a b)
        (l ++ [t])
      exact hpair.imp (fun hab => by simpa using hab)
    have happ : (l ++ [t]).Nodup := by
      rw [List.nodup_append]
      refine ⟨nodup_of_sorted_lt hs, List.nodup_singleton t, ?_⟩
      intro x hx hx'
      simp only [List.mem_singleton] at hx'
      subst hx'
      exact hmem hx
    exact sorted_lt_of_pairwise_le_nodup hle (hperm.symm.nodup happ)

theorem handleRemoveMarker_sorted (t : ℚ) (l : List ℚ) (hs : List.Sorted (· < ·) l) :
    List.Sorted (· < ·) (handleRemoveMarker t l) :=
  List.Pairwise.sublist (List.filter_sublist l) hs

theorem reachableMarkers_sorted (l : List ℚ) (h : ReachableMarkers l) :
    List.Sorted (· < ·) l := by
  induction h with
  | init => exact List.sorted_nil
  | add t _ ih => exact handleAddMarker_sorted t _ ih
  | remove t _ ih => exact handleRemoveMarker_sorted t _ ih

theorem extractFramesLoop_timestamps_sublist
    (extract : ℚ → ℕ → OutputFormat → Bool → Option ResizeResult)
    (nn : String) (res : ℕ) (fmt : OutputFormat) (comp : Bool) :
    ∀ (i : ℕ) (l : List ℚ),
      ((extractFramesLoop extract nn res fmt comp i l).map (fun f => f.timestamp)).Sublist l := by
  intro i l
  induction l generalizing i with
  | nil => simp [extractFramesLoop]
  | cons t rest ih =>
    simp only [extractFramesLoop]
    rcases hr : extract t res fmt comp with _ | r
    · simpa using List.Sublist.cons t (ih (i + 1))
    · simpa [mkExtractedFrame] using List.Sublist.cons₂ t (ih (i + 1))

/-- C5: a duplicate add is a no-op; adding a fresh timestamp yields a list
that is still strictly ascending and contains the timestamp; removal keeps
the list strictly ascending; every marker list reachable from the empty
default by add and remove operations is strictly ascending and duplicate
free; and the processing loop visits the markers, hence the captured frames,
in ascending timestamp order. -/
theorem marker_list_spec :
    (∀ (t : ℚ) (l : List ℚ), t ∈ l → handleAddMarker t l = l)
    ∧ (∀ (t : ℚ) (l : List ℚ), List.Sorted (· < ·) l →
        List.Sorted (· < ·) (handleAddMarker t l) ∧ t ∈ handleAddMarker t l)
    ∧ (∀ (t : ℚ) (l : List ℚ), List.Sorted (· < ·) l →
        List.Sorted (· < ·) (handleRemoveMarker t l))
    ∧ (∀ l : List ℚ, ReachableMarkers l → List.Sorted (· < ·) l ∧ l.Nodup)
    ∧ (∀ (extract : ℚ → ℕ → OutputFormat → Bool → Option ResizeResult)
        (nn : String) (res : ℕ) (fmt : OutputFormat) (comp : Bool) (l : List ℚ),
        ReachableMarkers l →
        List.Sorted (· < ·)
          ((extractFramesLoop extract nn res fmt comp 0 l).map (fun f => f.timestamp))) := by
  refine ⟨?_, ?_, ?_, ?_, ?_⟩
  · intro t l hmem
    unfold handleAddMarker
    rw [if_pos hmem]
  · intro t l hs
    refine ⟨handleAddMarker_sorted t l hs, ?_⟩
    by_cases hmem : t ∈ l
    · unfold handleAddMarker
      rw [if_pos hmem]
      exact hmem
    · exact (handleAddMarker_perm t l hmem).mem_iff.mpr (by simp)
  · intro t l hs
    exact handleRemoveMarker_sorted t l hs
  · intro l h
    exact ⟨reachableMarkers_sorted l h, nodup_of_sorted_lt (reachableMarkers_sorted l h)⟩
  · intro extract nn res fmt comp l h
    exact List.Pairwise.sublist (extractFramesLoop_timestamps_sublist extract nn res fmt comp 0 l)
      (reachableMarkers_sorted l h)

/-- Witness for C5 at concrete inputs: adding 5/2 to a list already holding
it leaves the list unchanged; adding 2 to the ascending list [1, 3] keeps it
ascending; and the empty reachable list is ascending. -/
theorem marker_list_spec_witness :
    ((5/2 : ℚ) ∈ [(5/2 : ℚ)] ∧ handleAddMarker (5/2) [(5/2 : ℚ)] = [(5/2 : ℚ)])
    ∧ (List.Sorted (· < ·) [(1 : ℚ), 3]
        ∧ List.Sorted (· < ·) (handleAddMarker 2 [(1 : ℚ), 3])
        ∧ (2 : ℚ) ∈ handleAddMarker 2 [(1 : ℚ), 3])
    ∧ (ReachableMarkers [] ∧ List.Sorted (· < ·) ([] : List ℚ) ∧ ([] : List ℚ).Nodup) := by
  have hs13 : List.Sorted (· < ·) [(1 : ℚ), 3] := by
    simp only [List.sorted_cons, List.mem_singleton, List.mem_cons, List.not_mem_nil]
    norm_num
  refine ⟨⟨by simp, marker_list_spec.1 (5/2) [(5/2 : ℚ)] (by simp)⟩,
    ⟨hs13, (marker_list_spec.2.1 2 [(1 : ℚ), 3] hs13).1, (marker_list_spec.2.1 2 [(1 : ℚ), 3] hs13).2⟩,
    ⟨ReachableMarkers.init, (marker_list_spec.2.2.2.1 [] ReachableMarkers.init).1,
      (marker_list_spec.2.2.2.1 [] ReachableMarkers.init).2⟩⟩

theorem cons_eraseIdx_perm {α : Type} (l : List α) (i : ℕ) (hi : i < l.length) :
    (l[i] :: l.eraseIdx i).Perm l := by
  have h2 : l.take i ++ l[i] :: l.drop (i + 1) = l := by
    rw [List.getElem_cons_drop, List.take_append_drop]
  have h1 : (l.take i ++ l[i] :: l.drop (i + 1)).Perm
      (l[i] :: (l.take i ++ l.drop (i + 1))) := List.perm_middle
  rw [List.eraseIdx_eq_take_drop_succ]
  exact (h2 ▸ h1).symm

/-- C9: with both drag indices set and in range, the reorder is a pure
permutation of the item list and the dragged item lands at the drag-over
position; with either index unset the handler leaves the list unchanged. -/
theorem drag_sort_spec {α : Type} (l : List α) (i j : ℕ)
    (hi : i < l.length) (hj : j < l.length) :
    (handleDragSort (some i) (some j) l).Perm l
    ∧ (handleDragSort (some i) (some j) l)[j]? = some l[i]
    ∧ (∀ oi : Option ℕ, handleDragSort oi none l = l)
    ∧ (∀ oj : Option ℕ, handleDragSort none oj l = l) := by
  have hget : l[i]? = some l[i] := List.getElem?_eq_getElem hi
  have hlen : j ≤ (l.eraseIdx i).length := by
    rw [List.length_eraseIdx]
    simp only [hi, if_pos]
    omega
  have hds : handleDragSort (some i) (some j) l = (l.eraseIdx i).insertIdx j l[i] := by
    simp only [handleDragSort, hget]
  refine ⟨?_, ?_, ?_, ?_⟩
  · rw [hds]
    exact (List.perm_insertIdx l[i] _ hlen).trans (cons_eraseIdx_perm l i hi)
  · rw [hds]
    have hj2 : j < ((l.eraseIdx i).insertIdx j l[i]).length := by
      rw [List.length_insertIdx j _ hlen]
      omega
    rw [List.getElem?_eq_getElem hj2]
    exact congrArg some (List.getElem_insertIdx_self _ _ _ hlen)
  · intro oi
    cases oi <;> rfl
  · intro oj
    rfl

/-- Witness for C9 at a concrete list: dragging the first of three items onto
the last position permutes the list and puts the dragged item last. -/
theorem drag_sort_spec_witness :
    0 < [(10 : ℕ), 20, 30].length ∧ 2 < [(10 : ℕ), 20, 30].length
    ∧ (handleDragSort (some 0) (some 2) [(10 : ℕ), 20, 30]).Perm [(10 : ℕ), 20, 30]
    ∧ (handleDragSort (some 0) (some 2) [(10 : ℕ), 20, 30])[2]? = some 10
    ∧ handleDragSort (some 0) (some 2) [(10 : ℕ), 20, 30] = [20, 30, 10] :=
  ⟨by decide, by decide,
   (drag_sort_spec [(10 : ℕ), 20, 30] 0 2 (by decide) (by decide)).1,
   (drag_sort_spec [(10 : ℕ), 20, 30] 0 2 (by decide) (by decide)).2.1,
   by decide⟩

/-- C10: with no files loaded the resizer process handler publishes no state
update at all, and with no video element or no markers the extractor process
handler publishes no state update at all. -/
theorem process_noop_spec
    (resize : String → ℕ → OutputFormat → Bool → Option ResizeResult)
    (extract : ℚ → ℕ → OutputFormat → Bool → Option ResizeResult)
    (s : BatchImageResizerState) (sv : VideoFrameExtractorState)
    (hfiles : s.files = []) (hvid : sv.videoLoaded = false ∨ sv.markers = []) :
    handleProcessImage resize s = [] ∧ handleProcessVideo extract sv = [] := by
  constructor
  · unfold handleProcessImage
    rw [if_pos hfiles]
  · unfold handleProcessVideo
    rcases hvid with h | h
    · rw [if_pos (Or.inl (by simp [h]))]
    · rw [if_pos (Or.inr h)]

/-- Witness for C10 at the default states: both handlers publish nothing. -/
theorem process_noop_spec_witness :
    defaultResizerState.files = []
    ∧ defaultExtractorState.videoLoaded = false
    ∧ handleProcessImage sampleResize defaultResizerState = []
    ∧ handleProcessVideo sampleExtract defaultExtractorState = [] :=
  ⟨rfl, rfl,
   (process_noop_spec sampleResize sampleExtract defaultResizerState defaultExtractorState
      rfl (Or.inl rfl)).1,
   (process_noop_spec sampleResize sampleExtract defaultResizerState defaultExtractorState
      rfl (Or.inl rfl)).2⟩

theorem processOne_originalFile
    (resize : String → ℕ → OutputFormat → Bool → Option ResizeResult)
    (nn : String) (res : ℕ) (fmt : OutputFormat) (comp : Bool) (i : ℕ) (f : ResizerFile) :
    (processOne resize nn res fmt comp i f).originalFile = f.originalFile := by
  unfold processOne
  rcases resize f.originalFile res fmt comp with _ | r
  · rfl
  · rfl

theorem processOne_twice
    (resize : String → ℕ → OutputFormat → Bool → Option ResizeResult)
    (nn : String) (res : ℕ) (fmt : OutputFormat) (comp : Bool) (i : ℕ) (f : ResizerFile) :
    ((processOne resize nn res fmt comp i (processOne resize nn res fmt comp i f)).processedWidth,
     (processOne resize nn res fmt comp i (processOne resize nn res fmt comp i f)).processedHeight,
     (processOne resize nn res fmt comp i (processOne resize nn res fmt comp i f)).processedSize)
      = ((processOne resize nn res fmt comp i f).processedWidth,
         (processOne resize nn res fmt comp i f).processedHeight,
         (processOne resize nn res fmt comp i f).processedSize) := by
  rcases h : resize f.originalFile res fmt comp with _ | r <;>
    simp [processOne, processedUpdate, h]

/-- C8: re-running the processing loop on the files produced by a first run,
under the same oracle and the same configuration, yields items with exactly
the same processed width, height and byte size as the first run; and a run
never alters the original input reference any item points at. -/
theorem reprocess_idempotent_spec
    (resize : String → ℕ → OutputFormat → Bool → Option ResizeResult)
    (nn : String) (res : ℕ) (fmt : OutputFormat) (comp : Bool) (files : List ResizerFile) :
    (processFiles resize nn res fmt comp 0 (processFiles resize nn res fmt comp 0 files)).map
        (fun f => (f.processedWidth, f.processedHeight, f.processedSize))
      = (processFiles resize nn res fmt comp 0 files).map
          (fun f => (f.processedWidth, f.processedHeight, f.processedSize))
    ∧ (processFiles resize nn res fmt comp 0 files).map (fun f => f.originalFile)
      = files.map (fun f => f.originalFile) := by
  constructor
  · apply List.ext_getElem?
    intro n
    simp only [processFiles, processFilesSnaps_fst_eq_mapIdx, List.getElem?_map,
      List.getElem?_mapIdx, Option.map_map]
    rcases files[n]? with _ | f
    · rfl
    · simp only [Option.map_some', Function.comp]
      exact congrArg some (processOne_twice resize nn res fmt comp (0 + n) f)
  · apply List.ext_getElem?
    intro n
    simp only [processFiles, processFilesSnaps_fst_eq_mapIdx, List.getElem?_map,
      List.getElem?_mapIdx, Option.map_map]
    rcases files[n]? with _ | f
    · rfl
    · simp only [Option.map_some', Function.comp]
      exact congrArg some (processOne_originalFile resize nn res fmt comp (0 + n) f)

theorem processFiles_length
    (resize : String → ℕ → OutputFormat → Bool → Option ResizeResult)
    (nn : String) (res : ℕ) (fmt : OutputFormat) (comp : Bool) (files : List ResizerFile) :
    (processFiles resize nn res fmt comp 0 files).length = files.length := by
  simp [processFiles, processFilesSnaps_fst_eq_mapIdx]

theorem extractFramesLoop_timestamps_filter
    (extract : ℚ → ℕ → OutputFormat → Bool → Option ResizeResult)
    (nn : String) (res : ℕ) (fmt : OutputFormat) (comp : Bool) :
    ∀ (i : ℕ) (l : List ℚ),
      (extractFramesLoop extract nn res fmt comp i l).map (fun f => f.timestamp)
        = l.filter (fun t => (extract t res fmt comp).isSome) := by
  intro i l
  induction l generalizing i with
  | nil => simp [extractFramesLoop]
  | cons t rest ih =>
    simp only [extractFramesLoop, List.filter_cons]
    rcases hr : extract t res fmt comp with _ | r
    · simpa [hr] using ih (i + 1)
    · simpa [hr, mkExtractedFrame] using ih (i + 1)

theorem extractFramesLoop_blob_isSome
    (extract : ℚ → ℕ → OutputFormat → Bool → Option ResizeResult)
    (nn : String) (res : ℕ) (fmt : OutputFormat) (comp : Bool) :
    ∀ (i : ℕ) (l : List ℚ) (fr : ExtractedFrame),
      fr ∈ extractFramesLoop extract nn res fmt comp i l → fr.processedBlob.isSome = true := by
  intro i l
  induction l generalizing i with
  | nil => simp [extractFramesLoop]
  | cons t rest ih =>
    intro fr hfr
    simp only [extractFramesLoop] at hfr
    rcases hr : extract t res fmt comp with _ | r
    · rw [hr] at hfr
      simp only [List.nil_append] at hfr
      exact ih (i + 1) fr hfr
    · rw [hr] at hfr
      simp only [List.singleton_append, List.mem_cons] at hfr
      rcases hfr with hfr | hfr
      · subst hfr
        rfl
      · exact ih (i + 1) fr hfr

/-- C2: under fresh inputs, a batch run of either orchestrator publishes a
non-empty update sequence whose final state clears the processing flag and
installs the final item list, every earlier published state has the
processing flag set, the resizer output list covers every input exactly once
with an item processed exactly when its resize succeeded, and the extractor
output list holds exactly one frame per succeeding marker (failed markers
are absent) with every produced frame carrying an output blob. The handlers
are total functions: no exception escapes a run. -/
theorem batch_partial_failure_spec
    (resize : String → ℕ → OutputFormat → Bool → Option ResizeResult)
    (extract : ℚ → ℕ → OutputFormat → Bool → Option ResizeResult)
    (s : BatchImageResizerState) (sv : VideoFrameExtractorState)
    (hfiles : s.files ≠ []) (hfresh : ∀ f ∈ s.files, f.processedBlob = none)
    (hvid : sv.videoLoaded = true) (hmarkers : sv.markers ≠ []) :
    (handleProcessImage resize s ≠ []
      ∧ (handleProcessImage resize s).getLast? =
          some { s with
                 isProcessing := false
                 files := processFiles resize s.newName s.resolution s.outputFormat s.compression 0 s.files }
      ∧ (∀ st ∈ (handleProcessImage resize s).dropLast, st.isProcessing = true)
      ∧ (processFiles resize s.newName s.resolution s.outputFormat s.compression 0 s.files).length
          = s.files.length
      ∧ (∀ n : ℕ,
          ((processFiles resize s.newName s.resolution s.outputFormat s.compression 0 s.files)[n]?).map
              (fun f => f.processedBlob.isSome)
            = (s.files[n]?).map
                (fun f => (resize f.originalFile s.resolution s.outputFormat s.compression).isSome)))
    ∧ (handleProcessVideo extract sv ≠ []
      ∧ (handleProcessVideo extract sv).getLast? =
          some { sv with
                 isProcessing := false
                 isPreviewCollapsed := true
                 extractedFrames :=
                   extractFramesLoop extract sv.newName sv.resolution sv.outputFormat sv.compression 0 sv.markers }
      ∧ (∀ st ∈ (handleProcessVideo extract sv).dropLast, st.isProcessing = true)
      ∧ ((extractFramesLoop extract sv.newName sv.resolution sv.outputFormat sv.compression 0 sv.markers).map
            (fun f => f.timestamp)
          = sv.markers.filter (fun t => (extract t sv.resolution sv.outputFormat sv.compression).isSome))
      ∧ (∀ fr ∈ extractFramesLoop extract sv.newName sv.resolution sv.outputFormat sv.compression 0 sv.markers,
          fr.processedBlob.isSome = true)) := by
  constructor
  · have htr : handleProcessImage resize s =
        ({ s with isProcessing := true }
          :: (processFilesSnaps resize s.newName s.resolution s.outputFormat s.compression 0 s.files).2.map
              (fun fl => { s with isProcessing := true, files := fl }))
          ++ [{ s with
                isProcessing := false
                files := processFiles resize s.newName s.resolution s.outputFormat s.compression 0 s.files }] := by
      unfold handleProcessImage
      rw [if_neg hfiles]
      rfl
    refine ⟨?_, ?_, ?_, processFiles_length resize s.newName s.resolution s.outputFormat s.compression s.files, ?_⟩
    · rw [htr]
      simp
    · rw [htr, List.getLast?_concat]
    · rw [htr, List.dropLast_concat]
      intro st hst
      rcases List.mem_cons.mp hst with h | h
      · subst h
        rfl
      · rcases List.mem_map.mp h with ⟨fl, _, hfl⟩
        rw [← hfl]
    · intro n
      simp only [processFiles, processFilesSnaps_fst_eq_mapIdx, List.getElem?_mapIdx]
      rcases hn : s.files[n]? with _ | f
      · rfl
      · have hf : f ∈ s.files := List.getElem?_mem hn
        simp only [Option.map_some']
        rcases hr : resize f.originalFile s.resolution s.outputFormat s.compression with _ | r
        · simp [processOne, hr, hfresh f hf]
        · simp [processOne, hr, processedUpdate]
  · have hguard : ¬ (¬ sv.videoLoaded ∨ sv.markers = []) := by
      rw [hvid]
      simp [hmarkers]
    have htr : handleProcessVideo extract sv =
        [{ sv with isProcessing := true },
         { sv with
           isProcessing := false
           isPreviewCollapsed := true
           extractedFrames :=
             extractFramesLoop extract sv.newName sv.resolution sv.outputFormat sv.compression 0 sv.markers }] := by
      unfold handleProcessVideo
      rw [if_neg hguard]
    refine ⟨?_, ?_, ?_, ?_, ?_⟩
    · rw [htr]
      simp
    · rw [htr]
      rfl
    · rw [htr]
      intro st hst
      simp only [List.dropLast_cons₂, List.dropLast_single, List.mem_singleton] at hst
      subst hst
      rfl
    · exact extractFramesLoop_timestamps_filter extract sv.newName sv.resolution sv.outputFormat sv.compression 0 sv.markers
    · exact extractFramesLoop_blob_isSome extract sv.newName sv.resolution sv.outputFormat sv.compression 0 sv.markers

/-- Witness for C2 at concrete inputs: three fresh files of which the second
fails to resize, and three markers of which the second fails to capture; both
runs publish states, every non-final published state shows processing, and
exactly two outputs are produced on each side. -/
theorem batch_partial_failure_spec_witness :
    (sampleResizerState.files ≠ []
      ∧ (∀ f ∈ sampleResizerState.files, f.processedBlob = none)
      ∧ sampleExtractorState.videoLoaded = true
      ∧ sampleExtractorState.markers ≠ [])
    ∧ (handleProcessImage sampleResize sampleResizerState ≠ []
      ∧ (∀ st ∈ (handleProcessImage sampleResize sampleResizerState).dropLast,
          st.isProcessing = true)
      ∧ handleProcessVideo sampleExtract sampleExtractorState ≠ [])
    ∧ (processFiles sampleResize sampleResizerState.newName sampleResizerState.resolution
        sampleResizerState.outputFormat sampleResizerState.compression 0
        sampleResizerState.files).countP (fun f => f.processedBlob.isSome) = 2
    ∧ (extractFramesLoop sampleExtract sampleExtractorState.newName
        sampleExtractorState.resolution sampleExtractorState.outputFormat
        sampleExtractorState.compression 0 sampleExtractorState.markers).length = 2 := by
  have h1 : sampleResizerState.files ≠ [] := by decide
  have h2 : ∀ f ∈ sampleResizerState.files, f.processedBlob = none := by decide
  have h3 : sampleExtractorState.videoLoaded = true := rfl
  have h4 : sampleExtractorState.markers ≠ [] := by decide
  have h := batch_partial_failure_spec sampleResize sampleExtract
    sampleResizerState sampleExtractorState h1 h2 h3 h4
  exact ⟨⟨h1, h2, h3, h4⟩, ⟨h.1.1, h.1.2.2.1, h.2.1⟩, by decide, by decide⟩

theorem extractFramesLoop_names
    (extract : ℚ → ℕ → OutputFormat → Bool → Option ResizeResult)
    (nn : String) (res : ℕ) (fmt : OutputFormat) (comp : Bool) :
    ∀ (i0 : ℕ) (markers : List ℚ),
      (∀ t ∈ markers, (extract t res fmt comp).isSome = true) →
      (extractFramesLoop extract nn res fmt comp i0 markers).map (fun f => f.displayName)
        = (List.range markers.length).map (fun k => videoDeriveName nn (i0 + k) fmt) := by
  intro i0 markers
  induction markers generalizing i0 with
  | nil =>
    intro _
    simp [extractFramesLoop]
  | cons t rest ih =>
    intro hall
    rcases Option.isSome_iff_exists.mp (hall t (by simp)) with ⟨r, hr⟩
    simp only [extractFramesLoop, hr, List.singleton_append, List.map_cons, List.length_cons,
      List.range_succ_eq_map, List.map_map]
    rw [ih (i0 + 1) (fun u hu => hall u (by simp [hu]))]
    refine congrArg₂ List.cons ?_ ?_
    · simp [mkExtractedFrame]
    · refine congrArg (fun g => List.map g (List.range rest.length)) ?_
      funext k
      simp only [Function.comp_apply]
      have hk : i0 + 1 + k = i0 + (k + 1) := by omega
      rw [hk]

/-- C3 (amended): in the image resizer, the item at index n gets output name
base-(n+1) plus the format extension when the trimmed base name is non-empty,
and its original display name with the extension stripped plus the format
extension otherwise; in the video extractor, the frame for marker index k
gets base-(k+1) plus the extension when the trimmed base name is non-empty,
and frame-(k+1) plus the extension otherwise (not a name derived from any
original file name). -/
theorem output_naming_spec :
    (∀ (resize : String → ℕ → OutputFormat → Bool → Option ResizeResult)
       (nn : String) (res : ℕ) (fmt : OutputFormat) (comp : Bool)
       (files : List ResizerFile) (n : ℕ) (f0 : ResizerFile) (r : ResizeResult),
       files[n]? = some f0 →
       resize f0.originalFile res fmt comp = some r →
       ((processFiles resize nn res fmt comp 0 files)[n]?).map (fun f => f.displayName)
         = some ((if jsTrim nn ≠ "" then jsTrim nn ++ "-" ++ toString (n + 1)
                  else stripExtension f0.displayName)
                 ++ (if fmt = OutputFormat.jpeg then ".jpg" else ".png")))
    ∧ (∀ (extract : ℚ → ℕ → OutputFormat → Bool → Option ResizeResult)
        (nn : String) (res : ℕ) (fmt : OutputFormat) (comp : Bool) (markers : List ℚ),
        (∀ t ∈ markers, (extract t res fmt comp).isSome = true) →
        (extractFramesLoop extract nn res fmt comp 0 markers).map (fun f => f.displayName)
          = (List.range markers.length).map (fun k =>
              (if jsTrim nn ≠ "" then jsTrim nn ++ "-" ++ toString (k + 1)
               else "frame-" ++ toString (k + 1))
              ++ (if fmt = OutputFormat.jpeg then ".jpg" else ".png"))) := by
  constructor
  · intro resize nn res fmt comp files n f0 r hf0 hr
    simp only [processFiles, processFilesSnaps_fst_eq_mapIdx, List.getElem?_mapIdx, hf0,
      Option.map_some']
    simp only [Nat.zero_add, processOne, hr, processedUpdate, imageDeriveName, outputExt]
  · intro extract nn res fmt comp markers hall
    rw [extractFramesLoop_names extract nn res fmt comp 0 markers hall]
    refine congrArg (fun g => List.map g (List.range markers.length)) ?_
    funext k
    simp only [Nat.zero_add, videoDeriveName, outputExt]

/-- C3 counterexample: in the video extractor with an empty base name, a run
over one marker of a video originally named clip.mp4 yields the frame name
frame-1.jpg, not the original-stem name clip.jpg predicted by the claim. -/
theorem video_naming_counterexample :
    (extractFramesLoop sampleExtractAll "" 720 OutputFormat.jpeg true 0 [1]).map
        (fun f => f.displayName) = ["frame-1.jpg"]
    ∧ stripExtension "clip.mp4" ++ outputExt OutputFormat.jpeg = "clip.jpg"
    ∧ ("frame-1.jpg" : String) ≠ "clip.jpg" :=
  ⟨by decide, by decide, by decide⟩

/-- Witness for C3 (amended) at concrete inputs: base name trip yields
trip-1.jpg for the first image, and an empty base name yields frame-1.jpg
for the first extracted frame. -/
theorem output_naming_spec_witness :
    [sampleFile "photo.jpeg" "fileA"][0]? = some (sampleFile "photo.jpeg" "fileA")
    ∧ sampleResize (sampleFile "photo.jpeg" "fileA").originalFile 720 OutputFormat.jpeg true
        = some sampleResult
    ∧ ((processFiles sampleResize "trip" 720 OutputFormat.jpeg true 0
          [sampleFile "photo.jpeg" "fileA"])[0]?).map (fun f => f.displayName)
        = some "trip-1.jpg"
    ∧ (∀ t ∈ [(1 : ℚ)], (sampleExtractAll t 720 OutputFormat.jpeg true).isSome = true)
    ∧ (extractFramesLoop sampleExtractAll "" 720 OutputFormat.jpeg true 0 [(1 : ℚ)]).map
        (fun f => f.displayName) = ["frame-1.jpg"] :=
  ⟨rfl, by decide,
   output_naming_spec.1 sampleResize "trip" 720 OutputFormat.jpeg true
     [sampleFile "photo.jpeg" "fileA"] 0 (sampleFile "photo.jpeg" "fileA") sampleResult
     rfl (by decide),
   fun t _ => rfl,
   output_naming_spec.2 sampleExtractAll "" 720 OutputFormat.jpeg true [(1 : ℚ)]
     (fun t _ => rfl)⟩

theorem not_any_iff_not_mem_fst (acc : List (String × Blob)) (n : String) :
    (¬ acc.any (fun e => e.1 = n) = true) ↔ n ∉ acc.map Prod.fst := by
  simp [List.any_eq_true, List.mem_map]

theorem zipFileCall_map_fst_of_any (acc : List (String × Blob)) (n : String) (b : Blob)
    (h : acc.any (fun e => e.1 = n) = true) :
    (zipFileCall acc n b).map Prod.fst = acc.map Prod.fst := by
  unfold zipFileCall
  rw [if_pos h, List.map_map]
  refine congrArg (fun g => List.map g acc) ?_
  funext e
  simp only [Function.comp_apply]
  by_cases he : e.1 = n
  · simp [he]
  · simp [he]

theorem zipFileCall_map_fst_of_not_any (acc : List (String × Blob)) (n : String) (b : Blob)
    (h : ¬ acc.any (fun e => e.1 = n) = true) :
    (zipFileCall acc n b).map Prod.fst = acc.map Prod.fst ++ [n] := by
  unfold zipFileCall
  rw [if_neg h, List.map_append]
  rfl

theorem zipFileCall_names_nodup (acc : List (String × Blob)) (n : String) (b : Blob)
    (h : (acc.map Prod.fst).Nodup) : ((zipFileCall acc n b).map Prod.fst).Nodup := by
  by_cases ha : acc.any (fun e => e.1 = n) = true
  · rw [zipFileCall_map_fst_of_any acc n b ha]
    exact h
  · rw [zipFileCall_map_fst_of_not_any acc n b ha]
    rw [List.nodup_append]
    refine ⟨h, List.nodup_singleton n, ?_⟩
    intro x hx hx'
    simp only [List.mem_singleton] at hx'
    subst hx'
    exact (not_any_iff_not_mem_fst acc x).mp ha hx

theorem mem_fst_zipFileCall (acc : List (String × Blob)) (n : String) (b : Blob) (m : String)
    (h : m ∈ acc.map Prod.fst) : m ∈ (zipFileCall acc n b).map Prod.fst := by
  by_cases ha : acc.any (fun e => e.1 = n) = true
  · rw [zipFileCall_map_fst_of_any acc n b ha]
    exact h
  · rw [zipFileCall_map_fst_of_not_any acc n b ha]
    exact List.mem_append_left _ h

theorem self_mem_fst_zipFileCall (acc : List (String × Blob)) (n : String) (b : Blob) :
    n ∈ (zipFileCall acc n b).map Prod.fst := by
  by_cases ha : acc.any (fun e => e.1 = n) = true
  · rw [zipFileCall_map_fst_of_any acc n b ha]
    rcases List.any_eq_true.mp ha with ⟨e, he, hen⟩
    simp only [decide_eq_true_eq] at hen
    exact List.mem_map.mpr ⟨e, he, hen⟩
  · rw [zipFileCall_map_fst_of_not_any acc n b ha]
    exact List.mem_append_right _ (by simp)

theorem zipGet_zipFileCall (acc : List (String × Blob)) (m : String) (b : Blob) (n : String) :
    zipGet (zipFileCall acc m b) n = if m = n then some b else zipGet acc n := by
  unfold zipGet zipFileCall
  by_cases ha : acc.any (fun e => e.1 = m) = true
  · rw [if_pos ha, List.find?_map]
    have hcomp : ((fun e : String × Blob => decide (e.1 = n))
          ∘ fun e => if e.1 = m then (m, b) else e)
        = fun e : String × Blob => decide (e.1 = n) := by
      funext e
      simp only [Function.comp_apply]
      by_cases he : e.1 = m
      · simp [he]
      · simp [he]
    rw [hcomp]
    by_cases hmn : m = n
    · subst hmn
      have hsome : (acc.find? (fun e => e.1 = m)).isSome = true := by
        rw [List.find?_isSome]
        rcases List.any_eq_true.mp ha with ⟨e, he, hen⟩
        exact ⟨e, he, hen⟩
      rcases Option.isSome_iff_exists.mp hsome with ⟨e1, he1⟩
      have he1m : e1.1 = m := by simpa using List.find?_some he1
      rw [if_pos rfl, he1, Option.map_some', Option.map_some']
      simp [he1m]
    · rw [if_neg hmn]
      rcases hf : acc.find? (fun e => e.1 = n) with _ | e1
      · rw [hf]
        rfl
      · have he1n : e1.1 = n := by simpa using List.find?_some hf
        rw [hf]
        simp only [Option.map_some']
        have he1 : (if e1.1 = m then (m, b) else e1) = e1 := by
          rw [if_neg (by rw [he1n]; exact fun h => hmn h.symm)]
        rw [he1]
  · rw [if_neg ha, List.find?_append]
    by_cases hmn : m = n
    · subst hmn
      have hfn : acc.find? (fun e => e.1 = m) = none := by
        rw [List.find?_eq_none]
        intro x hx
        simpa using fun hxm => ha (List.any_eq_true.mpr ⟨x, hx, by simpa using hxm⟩)
      rw [hfn, Option.none_or]
      simp [List.find?_cons]
    · have hfone : ([(m, b)] : List (String × Blob)).find? (fun e => e.1 = n) = none := by
        simp [List.find?_cons, hmn]
      rw [hfone, Option.or_none, if_neg hmn]

theorem getLast?_cons_or {α : Type} (c : α) (l : List α) :
    (c :: l).getLast? = (l.getLast?).or (some c) := by
  cases l with
  | nil => rfl
  | cons d ds =>
    rw [List.getLast?_cons_cons]
    cases hl : (d :: ds).getLast? with
    | none => exact absurd (List.getLast?_eq_none_iff.mp hl) (by simp)
    | some b => rfl

theorem map_or_option {α β : Type} (o p : Option α) (f : α → β) :
    (o.or p).map f = (o.map f).or (p.map f) := by
  cases o <;> rfl

theorem lastWrite_cons (c : String × Blob) (cs : List (String × Blob)) (n : String) :
    lastWrite (c :: cs) n = (lastWrite cs n).or (if c.1 = n then some c.2 else none) := by
  unfold lastWrite
  by_cases hc : c.1 = n
  · rw [List.filter_cons, if_pos (by simpa using hc), if_pos hc]
    rw [getLast?_cons_or, map_or_option]
    rfl
  · rw [List.filter_cons, if_neg (by simpa using hc), if_neg hc, Option.or_none]

theorem zipGet_foldl (cs : List (String × Blob)) (n : String) :
    ∀ acc : List (String × Blob),
      zipGet (cs.foldl (fun a e => zipFileCall a e.1 e.2) acc) n
        = (lastWrite cs n).or (zipGet acc n) := by
  induction cs with
  | nil =>
    intro acc
    simp [lastWrite]
  | cons c cs2 ih =>
    intro acc
    simp only [List.foldl_cons]
    rw [ih (zipFileCall acc c.1 c.2), zipGet_zipFileCall, lastWrite_cons, Option.or_assoc]
    have hlast : (if c.1 = n then some c.2 else none).or (zipGet acc n)
        = if c.1 = n then some c.2 else zipGet acc n := by
      by_cases hc : c.1 = n
      · rw [if_pos hc, if_pos hc]
        rfl
      · rw [if_neg hc, if_neg hc, Option.none_or]
    rw [hlast]

theorem zipEntries_get (calls : List (String × Blob)) (n : String) :
    zipGet (zipEntries calls) n = lastWrite calls n := by
  unfold zipEntries
  rw [zipGet_foldl calls n []]
  have : zipGet [] n = none := rfl
  rw [this, Option.or_none]

theorem names_nodup_foldl (cs : List (String × Blob)) :
    ∀ acc : List (String × Blob), (acc.map Prod.fst).Nodup →
      ((cs.foldl (fun a e => zipFileCall a e.1 e.2) acc).map Prod.fst).Nodup := by
  induction cs with
  | nil =>
    intro acc h
    simpa using h
  | cons c cs2 ih =>
    intro acc h
    simp only [List.foldl_cons]
    exact ih _ (zipFileCall_names_nodup acc c.1 c.2 h)

theorem zipEntries_names_nodup (calls : List (String × Blob)) :
    ((zipEntries calls).map Prod.fst).Nodup :=
  names_nodup_foldl calls [] (by simp)

theorem mem_fst_foldl (cs : List (String × Blob)) :
    ∀ (acc : List (String × Blob)) (m : String), m ∈ acc.map Prod.fst →
      m ∈ (cs.foldl (fun a e => zipFileCall a e.1 e.2) acc).map Prod.fst := by
  induction cs with
  | nil =>
    intro acc m h
    simpa using h
  | cons c cs2 ih =>
    intro acc m h
    simp only [List.foldl_cons]
    exact ih _ m (mem_fst_zipFileCall acc c.1 c.2 m h)

theorem zipEntries_name_mem (calls : List (String × Blob)) :
    ∀ c ∈ calls, c.1 ∈ (zipEntries calls).map Prod.fst := by
  have aux : ∀ cs acc : List (String × Blob), ∀ c ∈ cs,
      c.1 ∈ (cs.foldl (fun a e => zipFileCall a e.1 e.2) acc).map Prod.fst := by
    intro cs
    induction cs with
    | nil =>
      intro acc c hc
      simp at hc
    | cons d ds ih =>
      intro acc c hc
      simp only [List.foldl_cons]
      rcases List.mem_cons.mp hc with h | h
      · subst h
        exact mem_fst_foldl ds _ c.1 (self_mem_fst_zipFileCall acc c.1 c.2)
      · exact ih _ c h
  exact aux calls []

theorem foldl_zipFileCall_of_disjoint (cs : List (String × Blob)) :
    ∀ acc : List (String × Blob), (cs.map Prod.fst).Nodup →
      (∀ c ∈ cs, c.1 ∉ acc.map Prod.fst) →
      cs.foldl (fun a e => zipFileCall a e.1 e.2) acc = acc ++ cs := by
  induction cs with
  | nil =>
    intro acc _ _
    simp
  | cons c cs2 ih =>
    intro acc hnd hdis
    simp only [List.foldl_cons]
    have hstep : zipFileCall acc c.1 c.2 = acc ++ [c] := by
      unfold zipFileCall
      rw [if_neg ((not_any_iff_not_mem_fst acc c.1).mpr (hdis c (by simp)))]
    rw [hstep]
    simp only [List.map_cons, List.nodup_cons] at hnd
    rw [ih (acc ++ [c]) hnd.2 ?_]
    · rw [List.append_assoc, List.singleton_append]
    · intro d hd
      rw [List.map_append]
      intro hmem
      rcases List.mem_append.mp hmem with h | h
      · exact hdis d (by simp [hd]) h
      · simp only [List.map_cons, List.map_nil, List.mem_singleton] at h
        exact hnd.1 (h ▸ List.mem_map.mpr ⟨d, hd, rfl⟩)

theorem zipEntries_of_nodup_names (calls : List (String × Blob))
    (h : (calls.map Prod.fst).Nodup) : zipEntries calls = calls := by
  unfold zipEntries
  rw [foldl_zipFileCall_of_disjoint calls [] h (by simp)]
  simp

/-- C6 counterexample: two processed items whose derived output names collide
under the empty base name (photo.png and photo.jpeg both derive photo.jpg)
leave a container with one entry holding the last written blob; the first
item is absent from the container, whose entry count 1 differs from the
processed-item count 2 carried in the zip name. The container entries are
therefore not in bijection with the processed items, refuting the claim as
stated. -/
theorem archive_collision_counterexample :
    (collidingResizerState.files.filter (fun f => f.processedBlob.isSome)).length = 2
    ∧ handleDownloadImage collidingResizerState
        = some ([("photo.jpg", (⟨12⟩ : Blob))], "resized-images(1-2).zip")
    ∧ ([("photo.jpg", (⟨12⟩ : Blob))] : List (String × Blob)).length = 1
    ∧ ("photo.jpg", (⟨11⟩ : Blob)) ∉ ([("photo.jpg", (⟨12⟩ : Blob))] : List (String × Blob)) :=
  ⟨by decide, by decide, by decide, by decide⟩

/-- C6 (amended): either download is a no-op exactly when it has nothing
processed to package; otherwise it produces one container holding the
`zip.file` calls of the processed items in order, keyed by derived display
name with the last write winning on a name collision, so the entry names are
duplicate free, every processed item contributes its name, the blob stored
under a name is the last one written under it, and when the derived names are
pairwise distinct the entries are exactly the processed items in order; the
zip blob is named base(1-count).zip where count is the number of processed
items (not the number of container entries). -/
theorem archive_download_spec (s : BatchImageResizerState) (sv : VideoFrameExtractorState) :
    ((handleDownloadImage s = none ↔ ∀ f ∈ s.files, f.processedBlob = none)
      ∧ (∀ entries zipName, handleDownloadImage s = some (entries, zipName) →
          entries = zipEntries ((s.files.filter (fun f => f.processedBlob.isSome)).map
              (fun f => (f.displayName, f.processedBlob.getD ⟨0⟩)))
          ∧ (entries.map Prod.fst).Nodup
          ∧ (∀ f ∈ s.files, f.processedBlob.isSome = true → f.displayName ∈ entries.map Prod.fst)
          ∧ (∀ n : String, zipGet entries n
              = lastWrite ((s.files.filter (fun f => f.processedBlob.isSome)).map
                  (fun f => (f.displayName, f.processedBlob.getD ⟨0⟩))) n)
          ∧ (((s.files.filter (fun f => f.processedBlob.isSome)).map
                (fun f => f.displayName)).Nodup →
              entries = (s.files.filter (fun f => f.processedBlob.isSome)).map
                (fun f => (f.displayName, f.processedBlob.getD ⟨0⟩)))
          ∧ zipName = (if jsTrim s.newName ≠ "" then jsTrim s.newName else "resized-images")
              ++ "(1-" ++ toString (s.files.filter (fun f => f.processedBlob.isSome)).length
              ++ ").zip"))
    ∧ ((handleDownloadVideo sv = none ↔ sv.extractedFrames = [])
      ∧ ((∀ fr ∈ sv.extractedFrames, fr.processedBlob.isSome = true) →
          (handleDownloadVideo sv = none ↔ ∀ fr ∈ sv.extractedFrames, fr.processedBlob = none))
      ∧ (∀ entries zipName, handleDownloadVideo sv = some (entries, zipName) →
          entries = zipEntries (sv.extractedFrames.map
              (fun fr => (fr.displayName, fr.processedBlob.getD ⟨0⟩)))
          ∧ (entries.map Prod.fst).Nodup
          ∧ (∀ fr ∈ sv.extractedFrames, fr.displayName ∈ entries.map Prod.fst)
          ∧ (∀ n : String, zipGet entries n
              = lastWrite (sv.extractedFrames.map
                  (fun fr => (fr.displayName, fr.processedBlob.getD ⟨0⟩))) n)
          ∧ ((sv.extractedFrames.map (fun fr => fr.displayName)).Nodup →
              entries = sv.extractedFrames.map
                (fun fr => (fr.displayName, fr.processedBlob.getD ⟨0⟩)))
          ∧ zipName = (if jsTrim sv.newName ≠ "" then jsTrim sv.newName else "extracted-frames")
              ++ "(1-" ++ toString sv.extractedFrames.length ++ ").zip")) := by
  have keyI : handleDownloadImage s = none
      ↔ (s.files.filter (fun f => f.processedBlob.isSome)).length = 0 := by
    unfold handleDownloadImage
    by_cases hlen : (s.files.filter (fun f => f.processedBlob.isSome)).length = 0
    · simp [hlen]
    · simp [hlen]
  have keyV : handleDownloadVideo sv = none ↔ sv.extractedFrames.length = 0 := by
    unfold handleDownloadVideo
    by_cases hlen : sv.extractedFrames.length = 0
    · simp [hlen]
    · simp [hlen]
  refine ⟨⟨?_, ?_⟩, ⟨?_, ?_, ?_⟩⟩
  · rw [keyI, List.length_eq_zero, List.filter_eq_nil_iff]
    constructor
    · intro h f hf
      rcases ho : f.processedBlob with _ | b
      · rfl
      · exact absurd (by simp [ho]) (h f hf)
    · intro h f hf
      simp [h f hf]
  · intro entries zipName hsome
    unfold handleDownloadImage at hsome
    by_cases hlen : (s.files.filter (fun f => f.processedBlob.isSome)).length = 0
    · simp [hlen] at hsome
    · rw [if_neg hlen] at hsome
      rcases Prod.mk.injEq .. ▸ Option.some.inj hsome with ⟨hent, hzip⟩
      refine ⟨hent.symm, ?_, ?_, ?_, ?_, hzip.symm⟩
      · rw [← hent]
        exact zipEntries_names_nodup _
      · intro f hf hfsome
        rw [← hent]
        exact zipEntries_name_mem _ (f.displayName, f.processedBlob.getD ⟨0⟩)
          (List.mem_map.mpr ⟨f, List.mem_filter.mpr ⟨hf, hfsome⟩, rfl⟩)
      · intro n
        rw [← hent]
        exact zipEntries_get _ n
      · intro hnd
        rw [← hent]
        apply zipEntries_of_nodup_names
        rw [List.map_map]
        exact hnd
  · rw [keyV, List.length_eq_zero]
  · intro hall
    rw [keyV, List.length_eq_zero]
    constructor
    · intro h
      rw [h]
      simp
    · intro h
      rcases he : sv.extractedFrames with _ | ⟨fr, rest⟩
      · rfl
      · have h1 := hall fr (by rw [he]; simp)
        have h2 := h fr (by rw [he]; simp)
        rw [h2] at h1
        cases h1
  · intro entries zipName hsome
    unfold handleDownloadVideo at hsome
    by_cases hlen : sv.extractedFrames.length = 0
    · simp [hlen] at hsome
    · rw [if_neg hlen] at hsome
      rcases Prod.mk.injEq .. ▸ Option.some.inj hsome with ⟨hent, hzip⟩
      refine ⟨hent.symm, ?_, ?_, ?_, ?_, hzip.symm⟩
      · rw [← hent]
        exact zipEntries_names_nodup _
      · intro fr hfr
        rw [← hent]
        exact zipEntries_name_mem _ (fr.displayName, fr.processedBlob.getD ⟨0⟩)
          (List.mem_map.mpr ⟨fr, hfr, rfl⟩)
      · intro n
        rw [← hent]
        exact zipEntries_get _ n
      · intro hnd
        rw [← hent]
        apply zipEntries_of_nodup_names
        rw [List.map_map]
        exact hnd

/-- Witness for C6 (amended) at concrete states: one processed item, whose
derived name list is trivially duplicate free, produces a one-entry container
equal to the call list and a zip named with count 1; one extracted frame is
analogous; the empty default state produces nothing. -/
theorem archive_download_spec_witness :
    (handleDownloadImage processedResizerState
        = some ([("a.jpg", sampleBlob)], "resized-images(1-1).zip")
      ∧ ([("a.jpg", sampleBlob)] : List (String × Blob))
          = zipEntries ((processedResizerState.files.filter (fun f => f.processedBlob.isSome)).map
              (fun f => (f.displayName, f.processedBlob.getD ⟨0⟩)))
      ∧ ((processedResizerState.files.filter (fun f => f.processedBlob.isSome)).map
            (fun f => f.displayName)).Nodup
      ∧ ([("a.jpg", sampleBlob)] : List (String × Blob))
          = (processedResizerState.files.filter (fun f => f.processedBlob.isSome)).map
              (fun f => (f.displayName, f.processedBlob.getD ⟨0⟩)))
    ∧ (handleDownloadVideo processedExtractorState
        = some ([("frame-1.jpg", sampleBlob)], "extracted-frames(1-1).zip")
      ∧ ([("frame-1.jpg", sampleBlob)] : List (String × Blob))
          = zipEntries (processedExtractorState.extractedFrames.map
              (fun fr => (fr.displayName, fr.processedBlob.getD ⟨0⟩))))
    ∧ (handleDownloadImage defaultResizerState = none
      ∧ ∀ f ∈ defaultResizerState.files, f.processedBlob = none) := by
  have hI : handleDownloadImage processedResizerState
      = some ([("a.jpg", sampleBlob)], "resized-images(1-1).zip") := by decide
  have hV : handleDownloadVideo processedExtractorState
      = some ([("frame-1.jpg", sampleBlob)], "extracted-frames(1-1).zip") := by decide
  have cI := (archive_download_spec processedResizerState processedExtractorState).1.2 _ _ hI
  have cV := (archive_download_spec processedResizerState processedExtractorState).2.2.2 _ _ hV
  have hnd : ((processedResizerState.files.filter (fun f => f.processedBlob.isSome)).map
      (fun f => f.displayName)).Nodup := by decide
  have hnone : ∀ f ∈ defaultResizerState.files, f.processedBlob = none := by decide
  exact ⟨⟨hI, cI.1, hnd, cI.2.2.2.2.1 hnd⟩, ⟨hV, cV.1⟩,
    ⟨(archive_download_spec defaultResizerState processedExtractorState).1.1.mpr hnone, hnone⟩⟩
